import Mathlib

/-!
Shallow embedding of the pluribus gateway (Rust) and proofs about its
specification claims.

Modelling conventions:
* Rust `u64` counters are `Nat` (the operations modelled never overflow or
  wrap: they only copy and compare values).
* Rust `f64` utilization values are modelled as `ℚ`; the source only ever
  compares them against the constant threshold `0.995`, so order-faithful
  rationals capture the behaviour exactly for every representable value.
* Rust `String`/`&str` values are Lean `String`s; where the source does
  byte/char walking (prefix stripping, splitting, substring search) we work
  on the underlying character list `String.data`, which coincides with the
  Rust byte view on the ASCII data involved.
* `serde_json::Value` is the inductive `Json` below.  Its object maps are
  association lists; the source's `serde_json::Map` (a `BTreeMap`) differs
  from an association list only in iteration order, so all object
  properties are stated through key lookup, which both representations
  answer identically.
* Fallible Rust functions returning `anyhow::Result` are modelled with
  `Except String`.
* Loops are modelled with an explicit fuel argument where the recursion is
  not structural; the fuel is always instantiated so that it dominates the
  loop's iteration count (each iteration consumes at least one element of
  the buffer), and a recurrence lemma recovers the natural loop equation.
-/

/-! ## Usage accounting (src/providers/mod.rs) -/

/-- Token usage statistics, `struct Usage` with four `u64` counters. -/
structure Usage where
  input_tokens : Nat
  output_tokens : Nat
  cache_read_tokens : Nat
  cache_creation_tokens : Nat
deriving DecidableEq

/-- The `Default` value of `Usage`: all counters zero. -/
def Usage.zero : Usage := ⟨0, 0, 0, 0⟩

/-- Rust `Usage::merge_from`: a nonzero incoming field overwrites, a zero
incoming field keeps the current value.  The Rust method mutates `self`;
we return the updated value. -/
def Usage.merge_from (self other : Usage) : Usage :=
  { input_tokens :=
      if other.input_tokens > 0 then other.input_tokens else self.input_tokens
    output_tokens :=
      if other.output_tokens > 0 then other.output_tokens else self.output_tokens
    cache_read_tokens :=
      if other.cache_read_tokens > 0 then other.cache_read_tokens else self.cache_read_tokens
    cache_creation_tokens :=
      if other.cache_creation_tokens > 0 then
        other.cache_creation_tokens
      else self.cache_creation_tokens }

/-! ## JSON values (serde_json::Value) -/

/-- Model of `serde_json::Value`.  Numbers are modelled as integers: the
fields the gateway reads numerically are token counters accessed through
`as_u64`, which yields `None` on floats and negatives alike, and negatives
stand in for every non-`u64` number here. -/
inductive Json where
  | null
  | bool (b : Bool)
  | num (n : Int)
  | str (s : String)
  | arr (elems : List Json)
  | obj (fields : List (String × Json))

/-- Rust `Value::get(key)`: `None` on non-objects, key lookup on objects. -/
def Json.get? (j : Json) (key : String) : Option Json :=
  match j with
  | .obj fields => fields.lookup key
  | _ => none

/-- Rust `Value::as_str`. -/
def Json.asStr : Json → Option String
  | .str s => some s
  | _ => none

/-- Rust `Value::as_bool`. -/
def Json.asBool : Json → Option Bool
  | .bool b => some b
  | _ => none

/-- Rust `Value::as_u64`: defined exactly on nonnegative integers. -/
def Json.asU64 : Json → Option Nat
  | .num n => if 0 ≤ n then some n.toNat else none
  | _ => none

/-- Rust `parse_anthropic_usage` (src/providers/mod.rs): reads the `usage`
object, requires `input_tokens` and `output_tokens`, defaults the two
cache counters to zero, and rejects the result with an error if any of
the four values is zero. -/
def parse_anthropic_usage (response : Json) : Except String Usage :=
  match response.get? "usage" with
  | none => .error "Missing usage field"
  | some usage_obj =>
    match (usage_obj.get? "input_tokens").bind Json.asU64 with
    | none => .error "Missing or invalid input_tokens"
    | some input_tokens =>
      match (usage_obj.get? "output_tokens").bind Json.asU64 with
      | none => .error "Missing or invalid output_tokens"
      | some output_tokens =>
        let cache_read_tokens :=
          ((usage_obj.get? "cache_read_input_tokens").bind Json.asU64).getD 0
        let cache_creation_tokens :=
          ((usage_obj.get? "cache_creation_input_tokens").bind Json.asU64).getD 0
        if input_tokens = 0 ∨ output_tokens = 0 ∨
            cache_read_tokens = 0 ∨ cache_creation_tokens = 0 then
          .error "Usage contains zero values"
        else
          .ok ⟨input_tokens, output_tokens, cache_read_tokens, cache_creation_tokens⟩

/-! ## Provider configuration (src/providers/config.rs) -/

/-- Rust `enum ProviderType`. -/
inductive ProviderType where
  | anthropic
  | openai
  | claude_code
  | codex
deriving DecidableEq

/-- Rust `struct OAuthConfig`. -/
structure OAuthConfig where
  access_token : String
  refresh_token : String
  expires_at : Nat
  scopes : List String
deriving DecidableEq

/-- Rust `struct ApiConfig`. -/
structure ApiConfig where
  base_url : String
  api_key : String
deriving DecidableEq

/-- Rust `enum AuthConfig`: exactly one of OAuth or API credentials. -/
inductive AuthConfig where
  | oauth (c : OAuthConfig)
  | api (c : ApiConfig)
deriving DecidableEq

/-- Rust `struct ProviderConfig`. -/
structure ProviderConfig where
  name : String
  provider_type : ProviderType
  auth : AuthConfig
deriving DecidableEq

/-- Rust `struct TomlFile`: the parsed on-disk shape, `type` plus two optional
sub-sections. -/
structure TomlFile where
  provider_type : ProviderType
  oauth : Option OAuthConfig
  api : Option ApiConfig
deriving DecidableEq

/-- The structural-validation step of `config::load` after the TOML parse
succeeded (file I/O and TOML decoding are effectful and outside the
embedding; `name` is the file stem passed in by the caller).  The source
takes `[oauth]` when present, otherwise `[api]`, otherwise fails. -/
def config_load (name : String) (file : TomlFile) : Except String ProviderConfig :=
  match file.oauth with
  | some oauth => .ok ⟨name, file.provider_type, .oauth oauth⟩
  | none =>
    match file.api with
    | some api => .ok ⟨name, file.provider_type, .api api⟩
    | none => .error "No [oauth] or [api] section"

/-! ## Tool-name aliasing (src/providers/claude_code/tool_spoof.rs)

Names are character lists (the Rust code works on `&str`; all names in the
mapping table are ASCII, where chars and bytes coincide). -/

/-- The constant `DEFAULT_PREFIX`, the characters of `mcp_`. -/
def DEFAULT_PFX : List Char := "mcp_".data

/-- The table `MAPPINGS`: special (original, spoofed) pairs. -/
def MAPPINGS : List (List Char × List Char) :=
  [ ("bash".data, "Bash".data)
  , ("question".data, "AskUserQuestion".data)
  , ("read".data, "Read".data)
  , ("write".data, "Write".data)
  , ("edit".data, "Edit".data)
  , ("glob".data, "Glob".data)
  , ("grep".data, "Grep".data)
  , ("task".data, "Task".data)
  , ("webfetch".data, "WebFetch".data)
  , ("todowrite".data, "TodoWrite".data)
  , ("skill".data, "Skill".data) ]

/-- Rust `to_spoofed`: table lookup by original name, else add the `mcp_`
prefix unless the name already carries it. -/
def to_spoofed (name : List Char) : List Char :=
  match MAPPINGS.find? (fun m => m.1 == name) with
  | some m => m.2
  | none =>
    if DEFAULT_PFX.isPrefixOf name then name else DEFAULT_PFX ++ name

/-- Rust `to_original`: table lookup by spoofed name, else strip the `mcp_`
prefix when present (`strip_prefix(..).unwrap_or(name)`). -/
def to_original (name : List Char) : List Char :=
  match MAPPINGS.find? (fun m => m.2 == name) with
  | some m => m.1
  | none =>
    if DEFAULT_PFX.isPrefixOf name then name.drop DEFAULT_PFX.length else name

/-! ## Authentication middleware (src/gateway/middleware.rs) -/

/-- An incoming HTTP request, reduced to its header list.  Header names are
kept in the lowercased form the `http` crate normalises to;
`HeaderMap::get` returns the first value for a name. -/
structure Request where
  headers : List (String × String)

/-- Rust `HeaderMap::get(name)` followed by `to_str`: first value for the name
(values are modelled as strings, so `to_str` always succeeds). -/
def header_get (r : Request) (name : String) : Option String :=
  r.headers.lookup name

/-- Rust `str::strip_prefix`, on the character view. -/
def strip_pfx (p : List Char) (s : String) : Option String :=
  if p.isPrefixOf s.data then some ⟨s.data.drop p.length⟩ else none

/-- The secret extraction of `auth_middleware`: `Authorization` with the
`Bearer ` prefix stripped, else the `x-api-key` header. -/
def extract_secret (r : Request) : Option String :=
  match (header_get r "authorization").bind (strip_pfx "Bearer ".data) with
  | some s => some s
  | none => header_get r "x-api-key"

/-- Outcome of the middleware: run the inner handler, or answer with a
status code and body. -/
inductive AuthResult where
  | forward
  | reject (status : Nat) (body : String)
deriving DecidableEq

/-- The serialized `AuthError` body (serde writes the fields in declaration
order: renamed `type`, then `message`). -/
def AUTH_ERROR_BODY : String :=
  "\x7b\"type\":\"authentication_error\",\"message\":\"Invalid or missing secret\"\x7d"

/-- Rust `auth_middleware`: forward iff the extracted secret equals the
configured one (`subtle::ConstantTimeEq` on bytes is byte-for-byte,
i.e. string, equality); otherwise 401 with the fixed error body. -/
def auth_middleware (secret : String) (r : Request) : AuthResult :=
  let provided := extract_secret r
  let is_valid := match provided with
    | some p => p == secret
    | none => false
  if is_valid then .forward else .reject 401 AUTH_ERROR_BODY

/-! ## Messages handler transforms (src/gateway/handlers/messages.rs) -/

/-- Substring search, Rust `str::contains`, on character lists. -/
def containsSub (hay needle : List Char) : Bool :=
  if needle.isPrefixOf hay then true
  else
    match hay with
    | [] => false
    | _ :: t => containsSub t needle

/-- The constant `CLAUDE_CODE_IDENTITY`. -/
def CLAUDE_CODE_IDENTITY : List Char := "You are Claude Code".data

/-- The element `inject_claude_code_prompt` prepends (the `json!` literal;
serde_json object keys are shown in their sorted order, which is also the
literal's order). -/
def identityPrompt : Json :=
  .obj [ ("cache_control", .obj [("type", .str "ephemeral")])
       , ("text", .str "You are Claude Code, Anthropic's official CLI for Claude.")
       , ("type", .str "text") ]

/-- The `needs_injection` test: first element's `text` as a string, mapped
through "does not contain the identity substring", defaulting to `true`. -/
def needs_injection (system_arr : List Json) : Bool :=
  (((system_arr.head?.bind (fun item => item.get? "text")).bind Json.asStr).map
    (fun text => ! containsSub text.data CLAUDE_CODE_IDENTITY)).getD true

/-- In-place update of an existing object key (the `*system = ...` effect
of mutating through `get_mut`); leaves the list unchanged if the key is
absent. -/
def setField (fields : List (String × Json)) (key : String) (v : Json) :
    List (String × Json) :=
  match fields with
  | [] => []
  | (k, w) :: rest =>
    if k = key then (k, v) :: rest else (k, w) :: setField rest key v

/-- Rust `Map::insert`: replace the value under the key, or add the entry.  (The
source's map is key-sorted; we append instead and state every property via
lookup, on which the two agree.) -/
def insertField (fields : List (String × Json)) (key : String) (v : Json) :
    List (String × Json) :=
  if (fields.lookup key).isSome then setField fields key v
  else fields ++ [(key, v)]

/-- Rust `Map::remove`. -/
def removeField (fields : List (String × Json)) (key : String) :
    List (String × Json) :=
  fields.filter (fun p => !(p.1 == key))

/-- Rust `inject_claude_code_prompt`: when the body has a `system` array whose
first element's text is missing or lacks the identity substring, prepend
`identityPrompt`; otherwise leave the body alone. -/
def inject_claude_code_prompt (body : Json) : Json :=
  match body with
  | .obj fields =>
    match fields.lookup "system" with
    | some (.arr system_arr) =>
      if needs_injection system_arr then
        .obj (setField fields "system" (.arr (identityPrompt :: system_arr)))
      else .obj fields
    | _ => .obj fields
  | _ => body

/-- The handler's `is_streaming` decision:
`body.get("stream").and_then(as_bool).unwrap_or(false)`. -/
def is_streaming (body : Json) : Bool :=
  ((body.get? "stream").bind Json.asBool).getD false

/-- Rust `ClaudeCodeProvider::ensure_stream_field`: on objects, set `stream` to
the dispatch boolean and drop the internal `_passthrough_headers` key;
non-objects pass through. -/
def ensure_stream_field (request : Json) (stream : Bool) : Json :=
  match request with
  | .obj fields =>
    .obj (removeField (insertField fields "stream" (.bool stream)) "_passthrough_headers")
  | _ => request

/-! ## Beta-flag merge (src/providers/claude_code/mod.rs, constants.rs) -/

/-- The constant `BETA_FLAGS_BASE`, as character lists. -/
def BETA_FLAGS_BASE : List (List Char) :=
  [ "claude-code-20250219".data
  , "fine-grained-tool-streaming-2025-05-14".data
  , "interleaved-thinking-2025-05-14".data
  , "oauth-2025-04-20".data ]

/-- Rust `str::split(',')`: the (possibly empty) pieces between commas. -/
def splitComma : List Char → List (List Char)
  | [] => [[]]
  | c :: rest =>
    if c = ',' then [] :: splitComma rest
    else
      match splitComma rest with
      | g :: gs => (c :: g) :: gs
      | [] => [[c]]

/-- Whitespace for `str::trim` (the ASCII cases; all inputs involved are
ASCII). -/
def isWS (c : Char) : Bool := c = ' ' ∨ c = '\t' ∨ c = '\n' ∨ c = '\r'

/-- Rust `str::trim`. -/
def rustTrim (s : List Char) : List Char :=
  ((s.dropWhile isWS).reverse.dropWhile isWS).reverse

/-- Lexicographic strict comparison of character lists: the `Ord` order of
Rust `&str` (byte order; our flags are ASCII so char order coincides). -/
def strLt : List Char → List Char → Bool
  | [], [] => false
  | [], _ :: _ => true
  | _ :: _, [] => false
  | a :: as_, b :: bs =>
    if a < b then true
    else if b < a then false
    else strLt as_ bs

/-- Insertion into a sorted duplicate-free list: the effect of
`BTreeSet::insert`. -/
def insertSorted (x : List Char) : List (List Char) → List (List Char)
  | [] => [x]
  | y :: ys =>
    if strLt x y then x :: y :: ys
    else if x = y then y :: ys
    else y :: insertSorted x ys

/-- The split-trim-filter applied to a passthrough `anthropic-beta` value:
`passed.split(',').map(str::trim).filter(|s| !s.is_empty())`. -/
def splitBetaFlags (passed : List Char) : List (List Char) :=
  ((splitComma passed).map rustTrim).filter (fun s => !s.isEmpty)

/-- The passthrough flags of a request body: present iff
`_passthrough_headers.anthropic-beta` is a string. -/
def passthroughFlags (data : Json) : List (List Char) :=
  match ((data.get? "_passthrough_headers").bind
      (fun h => h.get? "anthropic-beta")).bind Json.asStr with
  | some passed => splitBetaFlags passed.data
  | none => []

/-- The `BTreeSet<&str>` of `build_beta_value`, as its sorted iteration
order: base flags collected first, passthrough flags inserted after. -/
def betaList (data : Json) : List (List Char) :=
  (BETA_FLAGS_BASE ++ passthroughFlags data).foldl
    (fun acc s => insertSorted s acc) []

/-- Rust `build_beta_value`: the sorted deduplicated flags joined with `,`. -/
def build_beta_value (data : Json) : List Char :=
  List.intercalate [','] (betaList data)

/-! ## Gateway state and provider selection (src/gateway/state.rs) -/

/-- Rust `RateLimitWindow` (src/providers/claude_code/mod.rs): status string,
reset Unix-seconds, and utilization in [0, 1] (an `f64` in the source,
modelled as `ℚ`). -/
structure RateLimitWindow where
  status : String
  reset : Nat
  utilization : ℚ
deriving DecidableEq

/-- Rust `RateLimitInfo`: the 5-hour and 7-day windows plus update time. -/
structure RateLimitInfo where
  five_hour : RateLimitWindow
  seven_day : RateLimitWindow
  updated_at : Nat
deriving DecidableEq

/-- The all-zero `RateLimitInfo::default()` snapshot. -/
def RateLimitInfo.zero : RateLimitInfo := ⟨⟨"", 0, 0⟩, ⟨"", 0, 0⟩, 0⟩

/-- A provider as the selection policy sees it: `rate_limit_info()` either
yields a snapshot or `None` (the trait default). -/
structure Provider where
  name : String
  provider_type : ProviderType
  rate_limit_info : Option RateLimitInfo
deriving DecidableEq

/-- The constant `UTILIZATION_THRESHOLD = 0.995` (`mkRat` keeps the comparison
kernel-computable; the value is the rational 995/1000). -/
def UTILIZATION_THRESHOLD : ℚ := mkRat 995 1000

/-- Rust `is_window_available`: utilization within threshold, or the reset time
already passed (`now` is the clock reading in Unix seconds, passed
explicitly; the source samples `SystemTime::now`). -/
def is_window_available (now : Nat) (window : RateLimitWindow) : Bool :=
  if window.utilization ≤ UTILIZATION_THRESHOLD then true
  else decide (now ≥ window.reset)

/-- Rust `is_provider_available`: both windows available whenever a snapshot
exists; providers without one are available. -/
def is_provider_available (now : Nat) (provider : Provider) : Bool :=
  match provider.rate_limit_info with
  | some rate_limit =>
    if !is_window_available now rate_limit.seven_day then false
    else if !is_window_available now rate_limit.five_hour then false
    else true
  | none => true

/-- Rust `AppState::get_next_provider`: filter by availability, then find the
first element passing the caller's predicate. -/
def get_next_provider (now : Nat) (providers : List Provider)
    (filter : Provider → Bool) : Option Provider :=
  (providers.filter (is_provider_available now)).find? filter

/-! ## Streaming relay (src/providers/claude_code/mod.rs, relay_stream)

The relay is modelled at the byte level: chunks come off the wire as byte
sequences (`Bytes`), each is decoded with `String::from_utf8_lossy` and
appended to a rolling buffer, and complete events (terminated by the bytes
`\n\n` = [10, 10]) are emitted one per send.  The buffer is kept as the
UTF-8 bytes of the Rust `String`; `str::find("\n\n")` returns a byte
index, and the byte 10 occurs in UTF-8 text only as the ASCII newline, so
the byte-level search coincides with the source's.  The in-flight usage
tally (parse_anthropic_usage / Usage.merge_from, modelled above) reads the
emitted events but never changes the bytes sent, so it does not appear in
the byte-level relay. -/

/-- Rust `String::from_utf8_lossy`, fuel-structured (the fuel is the byte count;
every step consumes at least one byte).  Valid UTF-8 runs are copied;
ill-formed input is replaced per maximal subpart: an invalid lead byte
costs one replacement, a truncated or broken sequence costs one
replacement for its valid prefix and rescans at the offending byte.
The replacement character U+FFFD encodes as EF BF BD. -/
def utf8LossyGo : Nat → List Nat → List Nat
  | 0, _ => []
  | _ + 1, [] => []
  | fuel + 1, b :: rest =>
    if b < 0x80 then b :: utf8LossyGo fuel rest
    else if b < 0xC2 then 0xEF :: 0xBF :: 0xBD :: utf8LossyGo fuel rest
    else if b ≤ 0xDF then
      match rest with
      | [] => [0xEF, 0xBF, 0xBD]
      | c1 :: r2 =>
        if 0x80 ≤ c1 ∧ c1 ≤ 0xBF then b :: c1 :: utf8LossyGo fuel r2
        else 0xEF :: 0xBF :: 0xBD :: utf8LossyGo fuel rest
    else if b ≤ 0xEF then
      match rest with
      | [] => [0xEF, 0xBF, 0xBD]
      | c1 :: r2 =>
        if (if b = 0xE0 then 0xA0 ≤ c1 ∧ c1 ≤ 0xBF
            else if b = 0xED then 0x80 ≤ c1 ∧ c1 ≤ 0x9F
            else 0x80 ≤ c1 ∧ c1 ≤ 0xBF) then
          match r2 with
          | [] => [0xEF, 0xBF, 0xBD]
          | c2 :: r3 =>
            if 0x80 ≤ c2 ∧ c2 ≤ 0xBF then b :: c1 :: c2 :: utf8LossyGo fuel r3
            else 0xEF :: 0xBF :: 0xBD :: utf8LossyGo fuel r2
        else 0xEF :: 0xBF :: 0xBD :: utf8LossyGo fuel rest
    else if b ≤ 0xF4 then
      match rest with
      | [] => [0xEF, 0xBF, 0xBD]
      | c1 :: r2 =>
        if (if b = 0xF0 then 0x90 ≤ c1 ∧ c1 ≤ 0xBF
            else if b = 0xF4 then 0x80 ≤ c1 ∧ c1 ≤ 0x8F
            else 0x80 ≤ c1 ∧ c1 ≤ 0xBF) then
          match r2 with
          | [] => [0xEF, 0xBF, 0xBD]
          | c2 :: r3 =>
            if 0x80 ≤ c2 ∧ c2 ≤ 0xBF then
              match r3 with
              | [] => [0xEF, 0xBF, 0xBD]
              | c3 :: r4 =>
                if 0x80 ≤ c3 ∧ c3 ≤ 0xBF then b :: c1 :: c2 :: c3 :: utf8LossyGo fuel r4
                else 0xEF :: 0xBF :: 0xBD :: utf8LossyGo fuel r3
            else 0xEF :: 0xBF :: 0xBD :: utf8LossyGo fuel r2
        else 0xEF :: 0xBF :: 0xBD :: utf8LossyGo fuel rest
    else 0xEF :: 0xBF :: 0xBD :: utf8LossyGo fuel rest

/-- Rust `String::from_utf8_lossy` on a whole chunk. -/
def utf8Lossy (chunk : List Nat) : List Nat := utf8LossyGo chunk.length chunk

/-- Rust `buffer.find("\n\n")`: byte index of the first newline pair. -/
def findNN : List Nat → Option Nat
  | [] => none
  | b :: rest =>
    if b = 10 ∧ rest.head? = some 10 then some 0
    else (findNN rest).map (· + 1)

/-- The inner `while let Some(pos) = buffer.find("\n\n")` loop: emit
`buffer[..pos]` plus its separator (i.e. the first `pos + 2` bytes) and
continue on the remainder.  Fuel-structured; each iteration consumes at
least two bytes, so the buffer length is ample fuel. -/
def drainGo : Nat → List Nat → List (List Nat) × List Nat
  | 0, buf => ([], buf)
  | fuel + 1, buf =>
    match findNN buf with
    | some pos =>
      let rest := drainGo fuel (buf.drop (pos + 2))
      ((buf.take (pos + 2)) :: rest.1, rest.2)
    | none => ([], buf)

/-- One run of the event-extraction loop over a buffer. -/
def drain (buf : List Nat) : List (List Nat) × List Nat :=
  drainGo buf.length buf

/-- The chunk loop of `relay_stream`: per upstream chunk, append its lossy
decoding to the buffer and drain complete events; returns all emitted
events and the final buffer. -/
def relayChunks : List (List Nat) → List Nat → List (List Nat) × List Nat
  | [], buf => ([], buf)
  | chunk :: chunks, buf =>
    let d := drain (buf ++ utf8Lossy chunk)
    let rest := relayChunks chunks d.2
    (d.1 ++ rest.1, rest.2)

/-- The model of `relay_stream` on a successfully received chunk sequence: the sends to
the client, namely the drained events followed by the verbatim flush of a
nonempty final buffer. -/
def relay_stream (chunks : List (List Nat)) : List (List Nat) :=
  let r := relayChunks chunks []
  r.1 ++ (if r.2.isEmpty then [] else [r.2])

/-- An SSE event body followed by its `\n\n` separator. -/
def frame (e : List Nat) : List Nat := e ++ [10, 10]

/-- Well-formedness of an SSE event body terminated by the `\n\n`
separator: the body contains no separator of its own and does not end in a
newline (so the frame contains exactly one `\n\n`, at its end). -/
def wfEvent (e : List Nat) : Prop := findNN e = none ∧ e.getLast? ≠ some 10

instance (e : List Nat) : Decidable (wfEvent e) := by
  unfold wfEvent
  infer_instance

/-- The first system element's text, as the spec describes it: the `text`
field of the first array element, when it is a string. -/
def firstSystemText (system_arr : List Json) : Option String :=
  (system_arr.head?.bind (fun item => item.get? "text")).bind Json.asStr

/-! ## Theorems -/

/-- C8: for each of the four counters independently and for all usage
values A and B, merging A and then B into the zero tally yields B's field
when it is nonzero and A's field otherwise. -/
theorem c8_usage_merge (A B : Usage) :
    ((Usage.zero.merge_from A).merge_from B).input_tokens
      = (if B.input_tokens ≠ 0 then B.input_tokens else A.input_tokens) ∧
    ((Usage.zero.merge_from A).merge_from B).output_tokens
      = (if B.output_tokens ≠ 0 then B.output_tokens else A.output_tokens) ∧
    ((Usage.zero.merge_from A).merge_from B).cache_read_tokens
      = (if B.cache_read_tokens ≠ 0 then B.cache_read_tokens else A.cache_read_tokens) ∧
    ((Usage.zero.merge_from A).merge_from B).cache_creation_tokens
      = (if B.cache_creation_tokens ≠ 0 then
          B.cache_creation_tokens
        else A.cache_creation_tokens) := by
  refine ⟨?_, ?_, ?_, ?_⟩ <;>
    simp only [Usage.merge_from, Usage.zero] <;>
    split_ifs <;> omega

/-- C3: the code path contradicts the claim.  A `message_delta` (or
`message_start.message`) payload whose usage object carries a zero counter
is rejected by `parse_anthropic_usage` with an error instead of being
treated as a partial update, so its nonzero `input_tokens = 7` can never
reach the tally (in the source, `relay_stream` even feeds this `Result`
where `merge_from` expects a `Usage`). -/
theorem c3_parse_usage_zero_is_error :
    parse_anthropic_usage (Json.obj
      [ ("type", Json.str "message_delta")
      , ("usage", Json.obj
          [ ("input_tokens", Json.num 7)
          , ("output_tokens", Json.num 3)
          , ("cache_read_input_tokens", Json.num 0)
          , ("cache_creation_input_tokens", Json.num 12) ]) ])
      = Except.error "Usage contains zero values" := by
  rfl

/-- C5 counterexample: a file carrying both sub-sections loads
successfully (the OAuth section wins); the claim demands a structural
error for this input. -/
theorem c5_load_both_sections_cex :
    config_load "prov"
      ⟨ProviderType.claude_code, some ⟨"at", "rt", 0, []⟩,
        some ⟨"https://u", "key"⟩⟩
      = Except.ok ⟨"prov", ProviderType.claude_code, AuthConfig.oauth ⟨"at", "rt", 0, []⟩⟩ := by
  rfl

/-- C5 (amended): loading fails with the structural error exactly when
both sub-sections are absent; when `[oauth]` is present it wins (even if
`[api]` is also present), otherwise `[api]` is used; a successfully loaded
record still always carries exactly one kind of credentials. -/
theorem c5_load_auth_sections (name : String) (file : TomlFile) :
    ((∃ e, config_load name file = .error e) ↔
      (file.oauth = none ∧ file.api = none)) ∧
    (∀ o, file.oauth = some o →
      config_load name file = .ok ⟨name, file.provider_type, .oauth o⟩) ∧
    (file.oauth = none → ∀ a, file.api = some a →
      config_load name file = .ok ⟨name, file.provider_type, .api a⟩) := by
  obtain ⟨t, o, a⟩ := file
  refine ⟨?_, ?_, ?_⟩ <;> cases o <;> cases a <;> simp [config_load]

/-- C5 witness: the amended theorem applied to concrete one-section and
zero-section files. -/
theorem c5_load_auth_sections_witness :
    config_load "prov" ⟨ProviderType.claude_code, some ⟨"at", "rt", 0, []⟩, none⟩
      = Except.ok ⟨"prov", ProviderType.claude_code, AuthConfig.oauth ⟨"at", "rt", 0, []⟩⟩ ∧
    config_load "prov2" ⟨ProviderType.anthropic, none, some ⟨"https://u", "key"⟩⟩
      = Except.ok ⟨"prov2", ProviderType.anthropic, AuthConfig.api ⟨"https://u", "key"⟩⟩ ∧
    (∃ e, config_load "prov3" ⟨ProviderType.codex, none, none⟩ = .error e) := by
  refine ⟨(c5_load_auth_sections "prov" _).2.1 _ rfl,
    (c5_load_auth_sections "prov2" _).2.2 rfl _ rfl,
    (c5_load_auth_sections "prov3" ⟨ProviderType.codex, none, none⟩).1.mpr ⟨rfl, rfl⟩⟩

/-- A true `isPrefixOf` exposes the suffix. -/
theorem isPrefixOf_exists_suffix :
    ∀ (p l : List Char), p.isPrefixOf l = true → ∃ t, l = p ++ t
  | [], l, _ => ⟨l, rfl⟩
  | _ :: _, [], h => by simp [List.isPrefixOf] at h
  | a :: as_, b :: bs, h => by
    simp only [List.isPrefixOf, Bool.and_eq_true, beq_iff_eq] at h
    obtain ⟨rfl, h2⟩ := h
    obtain ⟨t, rfl⟩ := isPrefixOf_exists_suffix as_ bs h2
    exact ⟨t, rfl⟩

/-- The function `isPrefixOf` holds on a literal append. -/
theorem isPrefixOf_append_self (p t : List Char) : p.isPrefixOf (p ++ t) = true := by
  induction p with
  | nil => cases t <;> rfl
  | cons a as_ ih => simp [List.isPrefixOf, ih]

/-- C4 counterexample: a client tool name that already carries the `mcp_`
prefix is passed through unchanged on outbound, but inbound strips the
prefix, so the round trip is not the identity. -/
theorem c4_alias_roundtrip_cex :
    to_original (to_spoofed "mcp_foo".data) = "foo".data ∧
    to_original (to_spoofed "mcp_foo".data) ≠ "mcp_foo".data := by
  exact ⟨by decide, by decide⟩

/-- C4 (amended): the round trip `to_original (to_spoofed x) = x` holds
for every client name in the alias table and for every name not starting
with `mcp_`; a non-table name that already starts with `mcp_` is left
unchanged outbound and has the prefix stripped inbound, so the round trip
drops the prefix. -/
theorem c4_alias_roundtrip (x : List Char) :
    (((∃ m ∈ MAPPINGS, m.1 = x) ∨ DEFAULT_PFX.isPrefixOf x = false) →
      to_original (to_spoofed x) = x) ∧
    (DEFAULT_PFX.isPrefixOf x = true →
      to_original (to_spoofed x) = x.drop DEFAULT_PFX.length) := by
  constructor
  · rintro (⟨m, hm, hx⟩ | hpfx)
    · subst hx
      simp only [MAPPINGS, List.mem_cons, List.not_mem_nil, or_false] at hm
      rcases hm with rfl|rfl|rfl|rfl|rfl|rfl|rfl|rfl|rfl|rfl|rfl <;> decide
    · rcases hfind : MAPPINGS.find? (fun m => m.1 == x) with _ | m
      · have hsp : to_spoofed x = DEFAULT_PFX ++ x := by
          unfold to_spoofed
          rw [hfind, hpfx]
          simp
        have hfind2 :
            MAPPINGS.find? (fun m => m.2 == DEFAULT_PFX ++ x) = none := rfl
        rw [hsp]
        unfold to_original
        rw [hfind2, isPrefixOf_append_self]
        simp only [eq_self_iff_true, if_true]
        rfl
      · have hmem := List.mem_of_find?_eq_some hfind
        have hx := List.find?_some hfind
        simp only [beq_iff_eq] at hx
        subst hx
        simp only [MAPPINGS, List.mem_cons, List.not_mem_nil, or_false] at hmem
        rcases hmem with rfl|rfl|rfl|rfl|rfl|rfl|rfl|rfl|rfl|rfl|rfl <;> decide
  · intro hpfx
    obtain ⟨t, rfl⟩ := isPrefixOf_exists_suffix _ _ hpfx
    have hfind : MAPPINGS.find? (fun m => m.1 == DEFAULT_PFX ++ t) = none := rfl
    have hfind2 : MAPPINGS.find? (fun m => m.2 == DEFAULT_PFX ++ t) = none := rfl
    have hsp : to_spoofed (DEFAULT_PFX ++ t) = DEFAULT_PFX ++ t := by
      unfold to_spoofed
      rw [hfind, isPrefixOf_append_self]
      simp only [eq_self_iff_true, if_true]
    rw [hsp]
    unfold to_original
    rw [hfind2, isPrefixOf_append_self]
    simp only [eq_self_iff_true, if_true]

/-- C4 witness: the amended round trip at a table name, an unprefixed
non-table name, and the stripped behaviour at a prefixed name. -/
theorem c4_alias_roundtrip_witness :
    to_original (to_spoofed "bash".data) = "bash".data ∧
    to_original (to_spoofed "mytool".data) = "mytool".data ∧
    to_original (to_spoofed "mcp_tool".data) = "mcp_tool".data.drop DEFAULT_PFX.length := by
  exact ⟨(c4_alias_roundtrip "bash".data).1 (Or.inl (by decide)),
    (c4_alias_roundtrip "mytool".data).1 (Or.inr (by decide)),
    (c4_alias_roundtrip "mcp_tool".data).2 (by decide)⟩

/-- C9: the middleware forwards exactly when the extracted secret (the
Bearer token of `Authorization` first, else `x-api-key`) equals the
configured secret byte for byte; otherwise it answers 401 with exactly the
fixed authentication-error body. -/
theorem c9_auth_iff (secret : String) (r : Request) :
    (auth_middleware secret r = .forward ↔ extract_secret r = some secret) ∧
    (extract_secret r ≠ some secret →
      auth_middleware secret r
        = .reject 401
            "\x7b\"type\":\"authentication_error\",\"message\":\"Invalid or missing secret\"\x7d") := by
  unfold auth_middleware
  rcases h : extract_secret r with _ | p
  · simp [AUTH_ERROR_BODY]
  · by_cases hp : p = secret
    · subst hp
      simp [AUTH_ERROR_BODY]
    · simp [AUTH_ERROR_BODY, hp, Ne.symm hp]

/-- C9 witness: a request with no headers is rejected with the exact error
body; a request bearing the secret is forwarded. -/
theorem c9_auth_iff_witness :
    auth_middleware "s3cret" ⟨[]⟩
      = .reject 401
          "\x7b\"type\":\"authentication_error\",\"message\":\"Invalid or missing secret\"\x7d" ∧
    auth_middleware "s3cret" ⟨[("authorization", "Bearer s3cret")]⟩ = .forward := by
  exact ⟨(c9_auth_iff "s3cret" ⟨[]⟩).2 (by decide),
    (c9_auth_iff "s3cret" ⟨[("authorization", "Bearer s3cret")]⟩).1.mpr (by decide)⟩

/-- Lookup after an in-place update under the same key. -/
theorem lookup_setField_self (fields : List (String × Json)) (key : String) (v : Json)
    (h : (fields.lookup key).isSome) : (setField fields key v).lookup key = some v := by
  induction fields with
  | nil => simp [List.lookup] at h
  | cons kv rest ih =>
    obtain ⟨k, w⟩ := kv
    by_cases hk : k = key
    · subst hk
      simp [setField, List.lookup]
    · simp only [setField, if_neg hk, List.lookup, beq_false_of_ne (Ne.symm hk)]
      exact ih (by simpa [List.lookup, beq_false_of_ne (Ne.symm hk)] using h)

/-- Lookup after an in-place update under a different key. -/
theorem lookup_setField_ne (fields : List (String × Json)) (key : String) (v : Json)
    (k : String) (h : k ≠ key) :
    (setField fields key v).lookup k = fields.lookup k := by
  induction fields with
  | nil => simp [setField]
  | cons kv rest ih =>
    obtain ⟨k1, w⟩ := kv
    by_cases hk : k1 = key
    · subst hk
      simp only [setField, if_pos rfl, List.lookup, beq_false_of_ne h]
    · simp only [setField, if_neg hk, List.lookup]
      by_cases hkk : k = k1
      · subst hkk
        simp
      · simp only [beq_false_of_ne hkk]
        exact ih

/-- Lookup in an appended singleton. -/
theorem lookup_append_single (fields : List (String × Json)) (key : String) (v : Json)
    (k : String) :
    (fields ++ [(key, v)]).lookup k
      = match fields.lookup k with
        | some w => some w
        | none => if k = key then some v else none := by
  induction fields with
  | nil =>
    by_cases hk : k = key
    · subst hk
      simp [List.lookup]
    · simp [List.lookup, hk, beq_false_of_ne hk]
  | cons kv rest ih =>
    obtain ⟨k1, w⟩ := kv
    by_cases hkk : k = k1
    · subst hkk
      simp [List.lookup]
    · simp only [List.cons_append, List.lookup, beq_false_of_ne hkk]
      exact ih

/-- The map update `insertField` puts the value under the key. -/
theorem lookup_insertField_self (fields : List (String × Json)) (key : String) (v : Json) :
    (insertField fields key v).lookup key = some v := by
  unfold insertField
  by_cases h : (fields.lookup key).isSome
  · rw [if_pos h]
    exact lookup_setField_self fields key v h
  · rw [if_neg h]
    rw [lookup_append_single]
    rcases hl : fields.lookup key with _ | w
    · simp
    · simp [hl] at h

/-- The map update `insertField` leaves other keys alone. -/
theorem lookup_insertField_ne (fields : List (String × Json)) (key : String) (v : Json)
    (k : String) (h : k ≠ key) :
    (insertField fields key v).lookup k = fields.lookup k := by
  unfold insertField
  by_cases hs : (fields.lookup key).isSome
  · rw [if_pos hs]
    exact lookup_setField_ne fields key v k h
  · rw [if_neg hs, lookup_append_single]
    rcases hl : fields.lookup k with _ | w
    · simp [h]
    · simp

/-- The map update `removeField` erases the key. -/
theorem lookup_removeField_self (fields : List (String × Json)) (key : String) :
    (removeField fields key).lookup key = none := by
  induction fields with
  | nil => rfl
  | cons kv rest ih =>
    obtain ⟨k1, w⟩ := kv
    by_cases hk : k1 = key
    · subst hk
      simpa [removeField] using ih
    · simp only [removeField, List.filter, beq_false_of_ne hk, Bool.not_false,
        List.lookup, beq_false_of_ne (Ne.symm hk)]
      exact ih

/-- The map update `removeField` leaves other keys alone. -/
theorem lookup_removeField_ne (fields : List (String × Json)) (key : String)
    (k : String) (h : k ≠ key) :
    (removeField fields key).lookup k = fields.lookup k := by
  induction fields with
  | nil => rfl
  | cons kv rest ih =>
    obtain ⟨k1, w⟩ := kv
    by_cases hk : k1 = key
    · subst hk
      simp only [removeField, List.filter, beq_self_eq_true, Bool.not_true,
        List.lookup, beq_false_of_ne h]
      simpa [removeField] using ih
    · simp only [removeField, List.filter, beq_false_of_ne hk, Bool.not_false,
        List.lookup]
      by_cases hkk : k = k1
      · subst hkk
        simp
      · simp only [beq_false_of_ne hkk]
        exact ih

/-- C10: a body whose `stream` field is absent or not a boolean is
dispatched on the non-streaming path, and the body then sent upstream has
`stream` set to the boolean `false`, carries no `_passthrough_headers`
key, and answers every other key exactly as before. -/
theorem c10_nonstreaming_dispatch (fields : List (String × Json))
    (h : ((Json.obj fields).get? "stream").bind Json.asBool = none) :
    is_streaming (Json.obj fields) = false ∧
    (ensure_stream_field (Json.obj fields) false).get? "stream"
      = some (Json.bool false) ∧
    (ensure_stream_field (Json.obj fields) false).get? "_passthrough_headers" = none ∧
    (∀ key, key ≠ "stream" → key ≠ "_passthrough_headers" →
      (ensure_stream_field (Json.obj fields) false).get? key
        = (Json.obj fields).get? key) := by
  refine ⟨?_, ?_, ?_, ?_⟩
  · simp [is_streaming, h]
  · show (removeField (insertField fields "stream" (.bool false))
        "_passthrough_headers").lookup "stream" = some (Json.bool false)
    rw [lookup_removeField_ne _ _ _ (by decide), lookup_insertField_self]
  · show (removeField (insertField fields "stream" (.bool false))
        "_passthrough_headers").lookup "_passthrough_headers" = none
    exact lookup_removeField_self _ _
  · intro key h1 h2
    show (removeField (insertField fields "stream" (.bool false))
        "_passthrough_headers").lookup key = fields.lookup key
    rw [lookup_removeField_ne _ _ _ h2, lookup_insertField_ne _ _ _ _ h1]

/-- C10 witness: a concrete body without `stream` is dispatched
non-streaming; the upstream body gains `stream = false`, loses the
passthrough object, and keeps `model`. -/
theorem c10_nonstreaming_dispatch_witness :
    is_streaming (Json.obj
      [("model", Json.str "claude"), ("_passthrough_headers", Json.obj [])]) = false ∧
    (ensure_stream_field (Json.obj
      [("model", Json.str "claude"), ("_passthrough_headers", Json.obj [])]) false).get?
        "stream" = some (Json.bool false) ∧
    (ensure_stream_field (Json.obj
      [("model", Json.str "claude"), ("_passthrough_headers", Json.obj [])]) false).get?
        "_passthrough_headers" = none ∧
    (ensure_stream_field (Json.obj
      [("model", Json.str "claude"), ("_passthrough_headers", Json.obj [])]) false).get?
        "model"
      = (Json.obj
          [("model", Json.str "claude"), ("_passthrough_headers", Json.obj [])]).get?
          "model" := by
  have h := c10_nonstreaming_dispatch
    [("model", Json.str "claude"), ("_passthrough_headers", Json.obj [])] (by rfl)
  exact ⟨h.1, h.2.1, h.2.2.1, h.2.2.2 "model" (by decide) (by decide)⟩

/-- C7: when the body has a `system` array, the transformer prepends the
fixed identity element exactly when the first element's text is missing
(or not a string) or lacks the identity substring, leaving the remaining
elements untouched and every other key unchanged (the update is in place
under `system`); with the substring present the body is unchanged, and
without a `system` array the body is unchanged. -/
theorem c7_prompt_injection :
    (∀ fields system_arr,
      (Json.obj fields).get? "system" = some (.arr system_arr) →
      ((firstSystemText system_arr = none ∨
        (∃ s, firstSystemText system_arr = some s ∧
          containsSub s.data CLAUDE_CODE_IDENTITY = false)) →
        inject_claude_code_prompt (Json.obj fields)
          = .obj (setField fields "system" (.arr (identityPrompt :: system_arr)))) ∧
      ((∃ s, firstSystemText system_arr = some s ∧
          containsSub s.data CLAUDE_CODE_IDENTITY = true) →
        inject_claude_code_prompt (Json.obj fields) = .obj fields)) ∧
    (∀ body, (∀ system_arr, body.get? "system" ≠ some (.arr system_arr)) →
      inject_claude_code_prompt body = body) := by
  have hni : ∀ system_arr, needs_injection system_arr
      = ((firstSystemText system_arr).map
          (fun text => !containsSub text.data CLAUDE_CODE_IDENTITY)).getD true :=
    fun _ => rfl
  constructor
  · intro fields system_arr hsys
    have hget : fields.lookup "system" = some (.arr system_arr) := hsys
    constructor
    · intro hcond
      have hneed : needs_injection system_arr = true := by
        rw [hni]
        rcases hcond with hnone | ⟨s, hs, hc⟩
        · rw [hnone]
          rfl
        · rw [hs]
          simp [hc]
      simp [inject_claude_code_prompt, hget, hneed]
    · rintro ⟨s, hs, hc⟩
      have hneed : needs_injection system_arr = false := by
        rw [hni, hs]
        simp [hc]
      simp [inject_claude_code_prompt, hget, hneed]
  · intro body hbody
    cases body with
    | obj fields =>
      have hget : (Json.obj fields).get? "system" = fields.lookup "system" := rfl
      rcases hl : fields.lookup "system" with _ | v
      · simp [inject_claude_code_prompt, hl]
      · cases v with
        | arr elems => exact absurd (hget.trans hl) (hbody elems)
        | null => simp [inject_claude_code_prompt, hl]
        | bool b => simp [inject_claude_code_prompt, hl]
        | num n => simp [inject_claude_code_prompt, hl]
        | str s => simp [inject_claude_code_prompt, hl]
        | obj f2 => simp [inject_claude_code_prompt, hl]
    | null => rfl
    | bool b => rfl
    | num n => rfl
    | str s => rfl
    | arr elems => rfl

/-- C7 witness: the spec's three examples, via the theorem at concrete
bodies. -/
theorem c7_prompt_injection_witness :
    inject_claude_code_prompt
        (Json.obj [("system", Json.arr [Json.obj [("text", Json.str "hello")]])])
      = Json.obj [("system",
          Json.arr [identityPrompt, Json.obj [("text", Json.str "hello")]])] ∧
    inject_claude_code_prompt
        (Json.obj [("system",
          Json.arr [Json.obj [("text", Json.str "You are Claude Code helper")]])])
      = Json.obj [("system",
          Json.arr [Json.obj [("text", Json.str "You are Claude Code helper")]])] ∧
    inject_claude_code_prompt (Json.obj [("model", Json.str "m")])
      = Json.obj [("model", Json.str "m")] := by
  refine ⟨?_, ?_, ?_⟩
  · exact ((c7_prompt_injection.1
      [("system", Json.arr [Json.obj [("text", Json.str "hello")]])]
      [Json.obj [("text", Json.str "hello")]] rfl).1
      (Or.inr ⟨"hello", rfl, by decide⟩))
  · exact ((c7_prompt_injection.1
      [("system", Json.arr [Json.obj [("text", Json.str "You are Claude Code helper")]])]
      [Json.obj [("text", Json.str "You are Claude Code helper")]] rfl).2
      ⟨"You are Claude Code helper", rfl, by decide⟩)
  · exact (c7_prompt_injection.2 _ (fun system_arr h => by simp [Json.get?, List.lookup] at h))

/-- The order `strLt` is irreflexive. -/
theorem strLt_irrefl : ∀ a : List Char, strLt a a = false
  | [] => rfl
  | c :: rest => by simp [strLt, strLt_irrefl rest]

/-- The order `strLt` is total: two lists compare one way, the other, or are equal. -/
theorem strLt_total : ∀ a b : List Char,
    strLt a b = true ∨ strLt b a = true ∨ a = b
  | [], [] => Or.inr (Or.inr rfl)
  | [], _ :: _ => Or.inl rfl
  | _ :: _, [] => Or.inr (Or.inl rfl)
  | a :: as_, b :: bs => by
    rcases lt_trichotomy a b with h | h | h
    · exact Or.inl (by simp [strLt, h, lt_asymm h])
    · subst h
      rcases strLt_total as_ bs with h2 | h2 | h2
      · exact Or.inl (by simp [strLt, h2])
      · exact Or.inr (Or.inl (by simp [strLt, h2]))
      · exact Or.inr (Or.inr (by rw [h2]))
    · exact Or.inr (Or.inl (by simp [strLt, h, lt_asymm h]))

/-- The order `strLt` is transitive. -/
theorem strLt_trans (a : List Char) : ∀ b c : List Char,
    strLt a b = true → strLt b c = true → strLt a c = true := by
  induction a with
  | nil =>
    intro b c h1 h2
    cases b with
    | nil => simp [strLt] at h1
    | cons y ys =>
      cases c with
      | nil => simp [strLt] at h2
      | cons z zs => rfl
  | cons x xs ih =>
    intro b c h1 h2
    cases b with
    | nil => simp [strLt] at h1
    | cons y ys =>
      cases c with
      | nil => simp [strLt] at h2
      | cons z zs =>
        simp only [strLt] at h1 h2 ⊢
        by_cases hxy : x < y
        · by_cases hyz : y < z
          · simp [lt_trans hxy hyz]
          · by_cases hzy : z < y
            · simp [hyz, hzy] at h2
            · have hEq : y = z := le_antisymm (not_lt.mp hzy) (not_lt.mp hyz)
              subst hEq
              simp [hxy]
        · by_cases hyx : y < x
          · simp [hxy, hyx] at h1
          · have hEq : x = y := le_antisymm (not_lt.mp hyx) (not_lt.mp hxy)
            subst hEq
            simp only [lt_irrefl, if_false] at h1
            by_cases hxz : x < z
            · simp [hxz]
            · by_cases hzx : z < x
              · simp [hxz, hzx] at h2
              · have hEq2 : x = z := le_antisymm (not_lt.mp hzx) (not_lt.mp hxz)
                subst hEq2
                simp only [lt_irrefl, if_false] at h2 ⊢
                exact ih ys zs h1 h2

/-- Membership through `insertSorted`. -/
theorem mem_insertSorted (x y : List Char) (l : List (List Char)) :
    y ∈ insertSorted x l ↔ y = x ∨ y ∈ l := by
  induction l with
  | nil => simp [insertSorted]
  | cons z zs ih =>
    simp only [insertSorted]
    by_cases h1 : strLt x z = true
    · rw [if_pos h1]
      simp only [List.mem_cons]
    · rw [if_neg h1]
      by_cases h2 : x = z
      · rw [if_pos h2]
        subst h2
        simp only [List.mem_cons]
        tauto
      · rw [if_neg h2]
        simp only [List.mem_cons, ih]
        tauto

/-- The insertion `insertSorted` preserves sortedness. -/
theorem pairwise_insertSorted (x : List Char) (l : List (List Char))
    (hl : l.Pairwise (fun a b => strLt a b = true)) :
    (insertSorted x l).Pairwise (fun a b => strLt a b = true) := by
  induction l with
  | nil => simp [insertSorted]
  | cons z zs ih =>
    obtain ⟨hz, hzs⟩ := List.pairwise_cons.mp hl
    simp only [insertSorted]
    by_cases h1 : strLt x z = true
    · rw [if_pos h1]
      refine List.pairwise_cons.mpr ⟨?_, hl⟩
      intro b hb
      rcases List.mem_cons.mp hb with rfl | hb2
      · exact h1
      · exact strLt_trans x z b h1 (hz b hb2)
    · rw [if_neg h1]
      by_cases h2 : x = z
      · rw [if_pos h2]
        exact hl
      · rw [if_neg h2]
        refine List.pairwise_cons.mpr ⟨?_, ih hzs⟩
        intro b hb
        rcases (mem_insertSorted x b zs).mp hb with rfl | hb2
        · rcases strLt_total b z with h | h | h
          · exact absurd h h1
          · exact h
          · exact absurd h h2
        · exact hz b hb2

/-- Membership through the `BTreeSet` fold. -/
theorem foldl_insertSorted_mem (l : List (List Char)) :
    ∀ acc y, (y ∈ l.foldl (fun acc s => insertSorted s acc) acc ↔ y ∈ acc ∨ y ∈ l) := by
  induction l with
  | nil => simp
  | cons s rest ih =>
    intro acc y
    simp only [List.foldl_cons]
    rw [ih (insertSorted s acc) y, mem_insertSorted]
    simp only [List.mem_cons]
    tauto

/-- Sortedness of the `BTreeSet` fold. -/
theorem foldl_insertSorted_pairwise (l : List (List Char)) :
    ∀ acc, acc.Pairwise (fun a b => strLt a b = true) →
      (l.foldl (fun acc s => insertSorted s acc) acc).Pairwise
        (fun a b => strLt a b = true) := by
  induction l with
  | nil =>
    intro acc h
    simpa using h
  | cons s rest ih =>
    intro acc h
    simp only [List.foldl_cons]
    exact ih _ (pairwise_insertSorted s acc h)

/-- A strictly sorted list has no duplicates. -/
theorem nodup_of_pairwise_strLt {l : List (List Char)}
    (h : l.Pairwise (fun a b => strLt a b = true)) : l.Nodup := by
  refine h.imp ?_
  intro a b hab hEq
  subst hEq
  rw [strLt_irrefl] at hab
  exact Bool.false_ne_true hab

/-- C6: the outbound `anthropic-beta` value is the join of a strictly
sorted, duplicate-free list whose members are exactly the base flags plus
the split-trimmed nonempty passthrough pieces; on the spec's concrete
passthrough value the result keeps `a` and `b` once each and every base
flag, in sorted order. -/
theorem c6_beta_merge (data : Json) :
    (betaList data).Pairwise (fun a b => strLt a b = true) ∧
    (betaList data).Nodup ∧
    (∀ s, s ∈ betaList data ↔ s ∈ BETA_FLAGS_BASE ∨ s ∈ passthroughFlags data) ∧
    build_beta_value (Json.obj [("_passthrough_headers",
        Json.obj [("anthropic-beta", Json.str "a, b ,oauth-2025-04-20,")])])
      = "a,b,claude-code-20250219,fine-grained-tool-streaming-2025-05-14,interleaved-thinking-2025-05-14,oauth-2025-04-20".data := by
  refine ⟨?_, ?_, ?_, ?_⟩
  · exact foldl_insertSorted_pairwise _ [] List.Pairwise.nil
  · exact nodup_of_pairwise_strLt (foldl_insertSorted_pairwise _ [] List.Pairwise.nil)
  · intro s
    rw [betaList, foldl_insertSorted_mem]
    simp [List.mem_append]
  · decide

/-- Finding in a filtered list is finding the conjunction. -/
theorem find?_filter_eq (l : List Provider) (p q : Provider → Bool) :
    (l.filter p).find? q = l.find? (fun a => p a && q a) := by
  induction l with
  | nil => rfl
  | cons x xs ih =>
    by_cases hp : p x = true
    · simp only [List.filter_cons, hp, if_true, List.find?]
      by_cases hq : q x = true
      · simp [hq, hp]
      · simp only [List.find?] at *
        simp [hq, hp, ih]
    · simp only [List.filter_cons, hp]
      simp only [Bool.false_eq_true, if_false, List.find?, hp, Bool.false_and]
      exact ih

/-- C1: provider selection returns the first provider in registry order
that is both available and accepted by the caller's predicate (none when
no such provider exists); a provider with a snapshot is unavailable
exactly when one of its two windows has utilization above the 0.995
threshold and a reset still in the future; a window whose reset has
passed is available regardless of utilization; the all-zero snapshot is
available. -/
theorem c1_provider_selection (now : Nat) (providers : List Provider)
    (filter : Provider → Bool) :
    (get_next_provider now providers filter
      = providers.find? (fun p => is_provider_available now p && filter p)) ∧
    (get_next_provider now providers filter = none ↔
      ∀ p ∈ providers, ¬(is_provider_available now p = true ∧ filter p = true)) ∧
    (∀ p rl, p.rate_limit_info = some rl →
      (is_provider_available now p = false ↔
        ((UTILIZATION_THRESHOLD < rl.five_hour.utilization ∧ now < rl.five_hour.reset) ∨
         (UTILIZATION_THRESHOLD < rl.seven_day.utilization ∧ now < rl.seven_day.reset)))) ∧
    (∀ w : RateLimitWindow, w.reset ≤ now → is_window_available now w = true) ∧
    (∀ p, p.rate_limit_info = some RateLimitInfo.zero →
      is_provider_available now p = true) ∧
    UTILIZATION_THRESHOLD = 995 / 1000 := by
  have hwin : ∀ w : RateLimitWindow,
      (is_window_available now w = false ↔
        (UTILIZATION_THRESHOLD < w.utilization ∧ now < w.reset)) := by
    intro w
    unfold is_window_available
    by_cases h : w.utilization ≤ UTILIZATION_THRESHOLD
    · simp [h, not_lt.mpr h]
    · simp only [h, if_false]
      rw [decide_eq_false_iff_not, not_le]
      exact ⟨fun h2 => ⟨not_le.mp h, h2⟩, fun h2 => h2.2⟩
  refine ⟨?_, ?_, ?_, ?_, ?_, ?_⟩
  · exact find?_filter_eq providers (is_provider_available now) filter
  · rw [get_next_provider, find?_filter_eq]
    rw [List.find?_eq_none]
    constructor
    · intro h p hp hpq
      have := h p hp
      rw [hpq.1, hpq.2] at this
      simp at this
    · intro h p hp
      intro hc
      rw [Bool.and_eq_true] at hc
      exact h p hp ⟨hc.1, hc.2⟩
  · intro p rl hrl
    unfold is_provider_available
    rw [hrl]
    by_cases h7 : is_window_available now rl.seven_day = true
    · by_cases h5 : is_window_available now rl.five_hour = true
      · simp only [h7, h5, Bool.not_true, Bool.false_eq_true, if_false]
        constructor
        · intro h
          simp at h
        · intro h
          rcases h with h | h
          · rw [(hwin rl.five_hour).mpr h] at h5
            simp at h5
          · rw [(hwin rl.seven_day).mpr h] at h7
            simp at h7
      · have h5f : is_window_available now rl.five_hour = false :=
          Bool.eq_false_iff.mpr h5
        simp only [h7, Bool.not_true, Bool.false_eq_true, if_false, h5f,
          Bool.not_false, if_true]
        constructor
        · intro _
          exact Or.inl ((hwin rl.five_hour).mp h5f)
        · intro _
          trivial
    · have h7f : is_window_available now rl.seven_day = false :=
        Bool.eq_false_iff.mpr h7
      simp only [h7f, Bool.not_false, if_true]
      constructor
      · intro _
        exact Or.inr ((hwin rl.seven_day).mp h7f)
      · intro _
        trivial
  · intro w hw
    unfold is_window_available
    by_cases h : w.utilization ≤ UTILIZATION_THRESHOLD
    · simp [h]
    · simp only [h, if_false]
      simpa using hw
  · intro p hp
    unfold is_provider_available
    rw [hp]
    have hz : is_window_available now ⟨"", 0, 0⟩ = true := by
      unfold is_window_available
      rw [if_pos (by unfold UTILIZATION_THRESHOLD; norm_num [Rat.mkRat_eq_div])]
    simp [RateLimitInfo.zero, hz]
  · unfold UTILIZATION_THRESHOLD
    rw [Rat.mkRat_eq_div]
    norm_num

/-- C1 witness: the spec's selection scenario evaluated through the
theorem: with providers A and B both available the selection returns A;
with A's 5-hour utilization at 0.996 and a future reset it returns B; with
A's reset in the past at utilization 1 it returns A again; and the
theorem's window facts at concrete inputs. -/
theorem c1_provider_selection_witness :
    get_next_provider 1000
        [ ⟨"A", ProviderType.claude_code, some RateLimitInfo.zero⟩
        , ⟨"B", ProviderType.claude_code, some RateLimitInfo.zero⟩ ]
        (fun p => p.provider_type == ProviderType.claude_code)
      = some ⟨"A", ProviderType.claude_code, some RateLimitInfo.zero⟩ ∧
    get_next_provider 1000
        [ ⟨"A", ProviderType.claude_code,
            some ⟨⟨"allowed", 2000, mkRat 996 1000⟩, ⟨"allowed", 0, 0⟩, 900⟩⟩
        , ⟨"B", ProviderType.claude_code, some RateLimitInfo.zero⟩ ]
        (fun p => p.provider_type == ProviderType.claude_code)
      = some ⟨"B", ProviderType.claude_code, some RateLimitInfo.zero⟩ ∧
    get_next_provider 1000
        [ ⟨"A", ProviderType.claude_code,
            some ⟨⟨"allowed", 900, mkRat 1 1⟩, ⟨"allowed", 0, 0⟩, 900⟩⟩
        , ⟨"B", ProviderType.claude_code, some RateLimitInfo.zero⟩ ]
        (fun p => p.provider_type == ProviderType.claude_code)
      = some ⟨"A", ProviderType.claude_code,
          some ⟨⟨"allowed", 900, mkRat 1 1⟩, ⟨"allowed", 0, 0⟩, 900⟩⟩ ∧
    (is_provider_available 1000
        ⟨"A", ProviderType.claude_code,
          some ⟨⟨"allowed", 2000, mkRat 996 1000⟩, ⟨"allowed", 0, 0⟩, 900⟩⟩ = false ↔
      ((UTILIZATION_THRESHOLD < mkRat 996 1000 ∧ 1000 < 2000) ∨
       (UTILIZATION_THRESHOLD < 0 ∧ 1000 < 0))) ∧
    is_window_available 1000 ⟨"rejected", 500, 1⟩ = true ∧
    is_provider_available 1000
      ⟨"C", ProviderType.claude_code, some RateLimitInfo.zero⟩ = true := by
  refine ⟨(c1_provider_selection 1000 _ _).1.trans (by decide),
    (c1_provider_selection 1000 _ _).1.trans (by decide),
    (c1_provider_selection 1000 _ _).1.trans (by decide),
    (c1_provider_selection 1000 [] (fun _ => true)).2.2.1 _
      ⟨⟨"allowed", 2000, mkRat 996 1000⟩, ⟨"allowed", 0, 0⟩, 900⟩ rfl,
    (c1_provider_selection 1000 [] (fun _ => true)).2.2.2.1 _ (by decide),
    (c1_provider_selection 1000 [] (fun _ => true)).2.2.2.2.1 _ rfl⟩

/-- The one-step unfolding of `findNN` on a nonempty buffer. -/
theorem findNN_cons (b : Nat) (rest : List Nat) :
    findNN (b :: rest)
      = if b = 10 ∧ rest.head? = some 10 then some 0
        else (findNN rest).map (· + 1) := rfl

/-- A separator position found by `findNN` lies two bytes inside the
buffer. -/
theorem findNN_some_length : ∀ (l : List Nat) (p : Nat),
    findNN l = some p → p + 2 ≤ l.length := by
  intro l
  induction l with
  | nil =>
    intro p h
    simp [findNN] at h
  | cons b rest ih =>
    intro p h
    simp only [findNN] at h
    by_cases hc : b = 10 ∧ rest.head? = some 10
    · rw [if_pos hc] at h
      obtain rfl : p = 0 := by simpa using h.symm
      rcases rest with _ | ⟨r0, rs⟩
      · simp at hc
      · simp
    · rw [if_neg hc] at h
      rcases Option.map_eq_some'.mp h with ⟨q, hq, rfl⟩
      have := ih q hq
      simp only [List.length_cons]
      omega

/-- The first separator position is stable under appending on the right. -/
theorem findNN_append_some : ∀ (l y : List Nat) (p : Nat),
    findNN l = some p → findNN (l ++ y) = some p := by
  intro l
  induction l with
  | nil =>
    intro y p h
    simp [findNN] at h
  | cons b rest ih =>
    intro y p h
    simp only [findNN] at h ⊢
    by_cases hc : b = 10 ∧ rest.head? = some 10
    · rcases rest with _ | ⟨r0, rs⟩
      · simp at hc
      · rw [if_pos hc] at h
        rw [if_pos (by simpa using hc)]
        exact h
    · rw [if_neg hc] at h
      rcases Option.map_eq_some'.mp h with ⟨q, hq, rfl⟩
      have hlen := findNN_some_length rest q hq
      rcases rest with _ | ⟨r0, rs⟩
      · simp at hlen
      · rw [if_neg (by simpa using hc)]
        simp only [List.append_eq] at *
        rw [ih y q hq]
        rfl

/-- The one-step unfolding of `drainGo` at positive fuel. -/
theorem drainGo_succ (fuel : Nat) (buf : List Nat) :
    drainGo (fuel + 1) buf
      = match findNN buf with
        | some pos => ((buf.take (pos + 2)) :: (drainGo fuel (buf.drop (pos + 2))).1,
            (drainGo fuel (buf.drop (pos + 2))).2)
        | none => ([], buf) := rfl

/-- Extra fuel beyond the buffer length does not change `drainGo`. -/
theorem drainGo_step : ∀ (fuel : Nat) (buf : List Nat),
    buf.length ≤ fuel → drainGo (fuel + 1) buf = drainGo fuel buf := by
  intro fuel
  induction fuel with
  | zero =>
    intro buf h
    obtain rfl : buf = [] := List.length_eq_zero.mp (Nat.le_zero.mp h)
    rfl
  | succ g ih =>
    intro buf h
    rw [drainGo_succ (g + 1) buf, drainGo_succ g buf]
    rcases hf : findNN buf with _ | p
    · simp only [hf]
    · have hlen := findNN_some_length buf p hf
      have hg : (buf.drop (p + 2)).length ≤ g := by
        simp only [List.length_drop]
        omega
      simp only [hf]
      rw [ih _ hg]

/-- Fuel at least the buffer length computes `drain`. -/
theorem drainGo_adequate : ∀ (fuel : Nat) (buf : List Nat),
    buf.length ≤ fuel → drainGo fuel buf = drain buf := by
  intro fuel
  induction fuel with
  | zero =>
    intro buf h
    obtain rfl : buf = [] := List.length_eq_zero.mp (Nat.le_zero.mp h)
    rfl
  | succ g ih =>
    intro buf h
    rcases Nat.lt_or_ge buf.length (g + 1) with hlt | hge
    · rw [drainGo_step g buf (by omega), ih buf (by omega)]
    · have : buf.length = g + 1 := by omega
      rw [drain, this]

/-- Evaluating `drain` on a buffer without a separator. -/
theorem drain_none (buf : List Nat) (h : findNN buf = none) :
    drain buf = ([], buf) := by
  rcases buf with _ | ⟨b, rest⟩
  · rfl
  · rw [drain]
    simp only [List.length_cons, drainGo, h]

/-- Evaluating `drain` on a buffer with its first separator at `p`: emit the first
`p + 2` bytes and continue. -/
theorem drain_some (buf : List Nat) (p : Nat) (h : findNN buf = some p) :
    drain buf = ((buf.take (p + 2)) :: (drain (buf.drop (p + 2))).1,
      (drain (buf.drop (p + 2))).2) := by
  have hlen := findNN_some_length buf p h
  rcases hl : buf.length with _ | m
  · rcases buf with _ | ⟨b, rest⟩
    · simp [findNN] at h
    · simp at hl
  · have hm : (buf.drop (p + 2)).length ≤ m := by
      simp only [List.length_drop]
      omega
    rw [drain, hl, drainGo_succ, h]
    show ((buf.take (p + 2)) :: (drainGo m (buf.drop (p + 2))).1,
        (drainGo m (buf.drop (p + 2))).2) = _
    rw [drainGo_adequate m _ hm]

/-- The residual buffer after a drain holds no separator. -/
theorem drain_residue_aux : ∀ (n : Nat) (buf : List Nat), buf.length ≤ n →
    findNN (drain buf).2 = none := by
  intro n
  induction n with
  | zero =>
    intro buf h
    obtain rfl : buf = [] := List.length_eq_zero.mp (Nat.le_zero.mp h)
    rfl
  | succ g ih =>
    intro buf h
    rcases hf : findNN buf with _ | p
    · rw [drain_none buf hf]
      exact hf
    · have hlen := findNN_some_length buf p hf
      rw [drain_some buf p hf]
      exact ih _ (by simp only [List.length_drop]; omega)

/-- Draining an extended buffer: drain the first part, then drain its
residue against the extension. -/
theorem drain_append_aux : ∀ (n : Nat) (b : List Nat), b.length ≤ n → ∀ c,
    drain (b ++ c) = ((drain b).1 ++ (drain ((drain b).2 ++ c)).1,
      (drain ((drain b).2 ++ c)).2) := by
  intro n
  induction n with
  | zero =>
    intro b h c
    obtain rfl : b = [] := List.length_eq_zero.mp (Nat.le_zero.mp h)
    rw [drain_none [] rfl]
    simp
  | succ g ih =>
    intro b h c
    rcases hf : findNN b with _ | p
    · rw [drain_none b hf]
      simp
    · have hlen := findNN_some_length b p hf
      rw [drain_some b p hf]
      rw [drain_some (b ++ c) p (findNN_append_some b c p hf)]
      rw [List.take_append_of_le_length (by omega),
        List.drop_append_of_le_length (by omega)]
      rw [ih (b.drop (p + 2)) (by simp only [List.length_drop]; omega) c]
      simp [List.cons_append]

/-- The chunk loop equals one drain of the whole decoded input, provided
the starting buffer holds no separator. -/
theorem relayChunks_eq_drain : ∀ (chunks : List (List Nat)) (buf : List Nat),
    findNN buf = none →
    relayChunks chunks buf = drain (buf ++ (chunks.map utf8Lossy).flatten) := by
  intro chunks
  induction chunks with
  | nil =>
    intro buf h
    simp only [relayChunks, List.map_nil, List.flatten_nil, List.append_nil]
    rw [drain_none buf h]
  | cons chunk rest ih =>
    intro buf h
    simp only [relayChunks, List.map_cons, List.flatten_cons]
    have hres : findNN (drain (buf ++ utf8Lossy chunk)).2 = none :=
      drain_residue_aux (buf ++ utf8Lossy chunk).length _ le_rfl
    rw [ih _ hres]
    rw [show buf ++ (utf8Lossy chunk ++ (rest.map utf8Lossy).flatten)
        = (buf ++ utf8Lossy chunk) ++ (rest.map utf8Lossy).flatten from by
      simp [List.append_assoc]]
    rw [drain_append_aux (buf ++ utf8Lossy chunk).length _ le_rfl _]

/-- In a well-formed frame followed by anything, the first separator sits
exactly at the end of the event body. -/
theorem findNN_frame : ∀ (e : List Nat), findNN e = none → e.getLast? ≠ some 10 →
    ∀ rest, findNN (e ++ 10 :: 10 :: rest) = some e.length := by
  intro e
  induction e with
  | nil =>
    intro _ _ rest
    simp [findNN]
  | cons b e2 ih =>
    intro hnone hlast rest
    rw [findNN_cons] at hnone
    by_cases hc : b = 10 ∧ e2.head? = some 10
    · rw [if_pos hc] at hnone
      simp at hnone
    · rw [if_neg hc] at hnone
      have he2 : findNN e2 = none := by
        rcases hm : findNN e2 with _ | q
        · rfl
        · rw [hm] at hnone
          simp at hnone
      rcases e2 with _ | ⟨x, t⟩
      · have hb : b ≠ 10 := by
          simpa [List.getLast?] using hlast
        show findNN (b :: ([] ++ 10 :: 10 :: rest)) = some 1
        rw [List.nil_append, findNN_cons, if_neg (by simp [hb]),
          findNN_cons, if_pos ⟨rfl, rfl⟩]
        rfl
      · have hlast2 : (x :: t).getLast? ≠ some 10 := by
          simpa using hlast
        have hx := ih he2 hlast2 rest
        show findNN ((b :: (x :: t)) ++ 10 :: 10 :: rest) = some ((x :: t).length + 1)
        rw [List.cons_append, findNN_cons, if_neg (by simpa using hc), hx]
        rfl

/-- Draining the concatenation of well-formed frames yields exactly those
frames and an empty residue. -/
theorem drain_frames : ∀ (events : List (List Nat)),
    (∀ e ∈ events, wfEvent e) →
    drain ((events.map frame).flatten) = (events.map frame, []) := by
  intro events
  induction events with
  | nil =>
    intro _
    rfl
  | cons e es ih =>
    intro hwf
    have hwe := hwf e (List.mem_cons_self e es)
    have hrest : ∀ e2 ∈ es, wfEvent e2 := fun e2 h2 => hwf e2 (List.mem_cons_of_mem e h2)
    simp only [List.map_cons, List.flatten_cons]
    have harr : frame e ++ (es.map frame).flatten
        = e ++ 10 :: 10 :: (es.map frame).flatten := by
      simp [frame, List.append_assoc]
    rw [harr]
    have hfind := findNN_frame e hwe.1 hwe.2 ((es.map frame).flatten)
    rw [drain_some _ e.length hfind]
    have htake : (e ++ 10 :: 10 :: (es.map frame).flatten).take (e.length + 2)
        = frame e := by
      rw [List.take_append]
      rfl
    have hdrop : (e ++ 10 :: 10 :: (es.map frame).flatten).drop (e.length + 2)
        = (es.map frame).flatten := by
      rw [List.drop_append]
      rfl
    rw [htake, hdrop, ih hrest]

/-- C2 (amended): for every finite sequence of well-formed SSE events and
every splitting of the concatenated frame bytes into chunks that are each
valid UTF-8 (i.e. on which the per-chunk lossy decode is lossless), the
relay emits exactly the original frames, one complete event per send,
with nothing left to flush.  (A chunk boundary inside a multi-byte UTF-8
character is excluded: the per-chunk `from_utf8_lossy` then rewrites the
split character to replacement characters, see the counterexample.) -/
theorem c2_relay_reframes_chunks (events chunks : List (List Nat))
    (hwf : ∀ e ∈ events, wfEvent e)
    (hchunks : ∀ c ∈ chunks, utf8Lossy c = c)
    (hsplit : chunks.flatten = (events.map frame).flatten) :
    relay_stream chunks = events.map frame := by
  have hmap : chunks.map utf8Lossy = chunks := by
    rw [show chunks.map utf8Lossy = chunks.map id from
      List.map_congr_left (fun c hc => hchunks c hc)]
    exact List.map_id chunks
  have hrc := relayChunks_eq_drain chunks [] rfl
  rw [List.nil_append, hmap, hsplit, drain_frames events hwf] at hrc
  show (relayChunks chunks []).1
      ++ (if (relayChunks chunks []).2.isEmpty then [] else [(relayChunks chunks []).2])
    = events.map frame
  rw [hrc]
  simp

/-- C2 counterexample: the single event `é` (bytes C3 A9) framed as
`C3 A9 0A 0A`, split between the two bytes of the character.  The relay
re-encodes each half as the replacement character, so the emitted event
differs from the original: the claim's "every way of splitting … into
chunks" fails at byte splits inside a multi-byte character. -/
theorem c2_relay_utf8_split_cex :
    wfEvent [0xC3, 0xA9] ∧
    [[0xC3], [0xA9, 10, 10]].flatten = ([[0xC3, 0xA9]].map frame).flatten ∧
    relay_stream [[0xC3], [0xA9, 10, 10]]
      = [[0xEF, 0xBF, 0xBD, 0xEF, 0xBF, 0xBD, 10, 10]] ∧
    relay_stream [[0xC3], [0xA9, 10, 10]] ≠ [[0xC3, 0xA9]].map frame := by
  exact ⟨⟨by decide, by decide⟩, by decide, by decide, by decide⟩

/-- C2 witness: two ASCII events over three chunks whose boundaries fall
inside an event and between the two separator newlines. -/
theorem c2_relay_reframes_chunks_witness :
    relay_stream [[100, 97], [116, 97, 10], [10, 104, 105, 10, 10]]
      = [[100, 97, 116, 97], [104, 105]].map frame := by
  exact c2_relay_reframes_chunks [[100, 97, 116, 97], [104, 105]]
    [[100, 97], [116, 97, 10], [10, 104, 105, 10, 10]]
    (by intro e he; fin_cases he <;> exact (by decide))
    (by decide) (by decide)
